import Mathlib

/-!
# go-shared: the packages validation, identity and errs

A shallow embedding of `src/validation/validation.go`,
`src/validation/validation_error.go`, `src/identity/identity.go` and
`src/errs/errs.go`.

* A Go `string` is an immutable sequence of bytes; `len` is the number of
  bytes and `== ""` is emptiness of that sequence.
* A Go `int` is embedded as `Int`; the only operations on it here are the
  comparisons `len(value) < min` and `len(value) > max`, which cannot overflow.
* `*Validator` methods mutate the receiver; they are embedded as functions
  from the receiver's state before the call to its state after the call.
* `mail.ParseAddress` belongs to the Go standard library (`net/mail`), not to
  this repository; `ValidEmail` takes it as a parameter.
* The field `errors` is given twice: as the sequence of recorded failures, and
  as a slice over backing arrays in memory, where `Errors` returns the slice
  itself. The second refines the first (`Heap_refines_Validator`).
* `context.WithValue` belongs to the Go standard library; `SetOwnerID` takes it
  as a parameter, and a context is taken by its method `Value`.
-/

namespace GoShared

/-- A Go string: a sequence of bytes. -/
abbrev GoString := List UInt8

/-- The Go string written as the literal `s` in a UTF-8 source file. -/
def GoString.lit (s : String) : GoString :=
  s.toList.flatMap String.utf8EncodeChar

namespace mail

set_option linter.dupNamespace false

/-- Modelled from the spec: the address returned by `mail.ParseAddress`, of the
Go standard library package `net/mail`, which is not under `src/`: the optional
display name and the address `local-part@domain`. -/
structure Address where
  Name : GoString
  Address : GoString
deriving DecidableEq, Repr

/-- Modelled from the spec: the bytes of an RFC 5322 atom (`atext`): the ASCII
letters and digits and the printable specials other than the separators. -/
def isAtext (b : UInt8) : Bool :=
  (65 ≤ b.toNat && b.toNat ≤ 90) || (97 ≤ b.toNat && b.toNat ≤ 122)
    || (48 ≤ b.toNat && b.toNat ≤ 57)
    || (GoString.lit "!#$%&'*+-/=?^_`\x7b|\x7d~").contains b

/-- Modelled from the spec: an RFC 5322 `dot-atom`, one or more non-empty atoms
separated by single dots (byte 46). -/
def isDotAtom (s : GoString) : Bool :=
  (s.splitOn 46).all (fun w => !w.isEmpty && w.all isAtext)

/-- Modelled from the spec: the form `local-part@domain`, both parts a
`dot-atom`, around exactly one `@` (byte 64). -/
def parseAddrSpec (s : GoString) : Option GoString :=
  match s.splitOn 64 with
  | [l, d] => if isDotAtom l && isDotAtom d then some s else none
  | _ => none

/-- Modelled from the spec: `mail.ParseAddress` of the Go standard library
package `net/mail`, which is not under `src/`. The spec says of it that it
parses the value "as a single mail-address specification (local-part@domain,
RFC 5322-style address, optional display name)": the value is either
`local-part@domain`, or a display name followed by `<local-part@domain>`
(bytes 60 and 62). Anything else is an error; the spec does not give the text
of the error, and one text stands for every failure. -/
def ParseAddress (address : GoString) : Except GoString Address :=
  match parseAddrSpec address with
  | some spec => Except.ok (Address.mk [] spec)
  | none =>
    match address.dropWhile (fun b => b != 60) with
    | [] => Except.error (GoString.lit "mail: no address")
    | _ :: rest =>
      if rest.getLast? = some 62 then
        match parseAddrSpec rest.dropLast with
        | some spec => Except.ok (Address.mk (address.takeWhile (fun b => b != 60)) spec)
        | none => Except.error (GoString.lit "mail: no address")
      else Except.error (GoString.lit "mail: no address")

end mail

/-! ## The packages `errs` and `identity`

`src/errs/errs.go` and `src/identity/identity.go`. The package `context` is
part of the Go standard library: a context is taken by its method `Value`, and
`context.WithValue` is a parameter of `SetOwnerID`. -/

/-- A value of the interface type `any`, by its dynamic type: `nil`, a `string`,
a value of the type `identity.contextKey` (a string type of its own), or a
value of another type. Two interface values are equal when their dynamic types
and their values are. -/
inductive GoAny where
  | nil
  | string (s : GoString)
  | contextKey (s : GoString)
  | other (tag : Nat)
deriving DecidableEq, Repr

namespace errs

/-- An error made by `errors.New(text)`: a pointer to its text. Every call of
`errors.New` returns a pointer of its own (`id`), and errors are compared by
pointer. -/
structure Error where
  id : Nat
  text : GoString
deriving DecidableEq, Repr

/-- The variable `ErrNotFound = errors.New("error.not-found")`. -/
def ErrNotFound : Error :=
  Error.mk 0 (GoString.lit "error.not-found")

/-- The variable `ErrUnauthenticated = errors.New("error.unauthenticated")`. -/
def ErrUnauthenticated : Error :=
  Error.mk 1 (GoString.lit "error.unauthenticated")

end errs

namespace context

/-- A non-nil value of the interface `context.Context`, by its method
`Value(key any) any`; the package does not call `Deadline`, `Done` or `Err`. -/
structure Context where
  Value : GoAny → GoAny

/-- The standard library function `context.WithValue(parent, key, val)`, which
is not under `src/`, by its documented contract: in the derived context the
value associated with `key` is `val`, and every other key is looked up in
`parent`. -/
def WithValue (parent : Context) (key val : GoAny) : Context :=
  Context.mk (fun k => if k = key then val else parent.Value k)

/-- The standard library function `context.Background()`: the empty context,
`Value` returns `nil` for every key. -/
def Background : Context :=
  Context.mk (fun _ => GoAny.nil)

end context

namespace identity

open context

/-- The constant `ownerIDKey contextKey = "ownerID"`. -/
def ownerIDKey : GoAny :=
  GoAny.contextKey (GoString.lit "ownerID")

/-- The function `SetOwnerID`, with `context.WithValue` as the parameter
`WithValue`: `return context.WithValue(ctx, ownerIDKey, ownerID)`; the owner ID
is stored as a value of dynamic type `string`. -/
def SetOwnerID (WithValue : Context → GoAny → GoAny → Context) (ctx : Context)
    (ownerID : GoString) : Context :=
  WithValue ctx ownerIDKey (GoAny.string ownerID)

/-- The function `OwnerID`: `ownerID, ok := ctx.Value(ownerIDKey).(string)` and
`return ownerID, ok`. The type assertion gives `("", false)` when the value is
not of dynamic type `string`. -/
def OwnerID (ctx : Context) : GoString × Bool :=
  match ctx.Value ownerIDKey with
  | GoAny.string s => (s, true)
  | _ => ([], false)

/-- The function `Require`: `ownerID, ok := OwnerID(ctx)`, then
`if !ok { return "", errs.ErrUnauthenticated }` and `return ownerID, nil`. The
second component is the returned `error`, `none` for `nil`. -/
def Require (ctx : Context) : GoString × Option errs.Error :=
  if (OwnerID ctx).2 = false then ([], some errs.ErrUnauthenticated)
  else ((OwnerID ctx).1, none)

end identity

namespace validation

/-- The struct `ValidationError` of `validation_error.go`. -/
structure ValidationError where
  Code : GoString
deriving DecidableEq, Repr

/-- The method `func (e *ValidationError) Error() string`. -/
def ValidationError.Error (e : ValidationError) : GoString :=
  e.Code

/-- The struct `Validator`: the field `errors []error`. Every element that the
package stores in it is a `*ValidationError`. -/
structure Validator where
  errors : List ValidationError
deriving DecidableEq, Repr

/-- The function `New`: `&Validator{}`, whose `errors` field is the nil slice. -/
def New : Validator :=
  Validator.mk []

/-- The method `Errors`: `return v.errors`. -/
def Validator.Errors (v : Validator) : List ValidationError :=
  v.errors

/-- The method `HasErrors`: `return len(v.errors) > 0`. -/
def Validator.HasErrors (v : Validator) : Bool :=
  decide (v.errors.length > 0)

/-- The method `AddError`:
`v.errors = append(v.errors, &ValidationError{Code: code})`. -/
def Validator.AddError (v : Validator) (code : GoString) : Validator :=
  Validator.mk (v.errors ++ [ValidationError.mk code])

/-- The method `RequiredString`: `if value == "" { v.AddError(code) }`. -/
def Validator.RequiredString (v : Validator) (value code : GoString) : Validator :=
  if value = [] then v.AddError code else v

/-- The method `MinLength`:
`if value != "" && len(value) < min { v.AddError(code) }`. -/
def Validator.MinLength (v : Validator) (value : GoString) (min : Int)
    (code : GoString) : Validator :=
  if value ≠ [] ∧ (value.length : Int) < min then v.AddError code else v

/-- The method `MaxLength`:
`if value != "" && len(value) > max { v.AddError(code) }`. -/
def Validator.MaxLength (v : Validator) (value : GoString) (max : Int)
    (code : GoString) : Validator :=
  if value ≠ [] ∧ (value.length : Int) > max then v.AddError code else v

/-- The result type of `mail.ParseAddress`, `(*mail.Address, error)`:
`Except.ok a` stands for `(a, nil)` and `Except.error e` for `(nil, e)` with
`e != nil`. The parsed address is of type `α`; `ValidEmail` discards it. -/
abbrev ParseResult (α : Type) := Except GoString α

/-- The method `ValidEmail`, with `mail.ParseAddress` as the parameter
`ParseAddress`:
`if value == "" { return }` and then
`if _, err := mail.ParseAddress(value); err != nil { v.AddError(code) }`. -/
def Validator.ValidEmail {α : Type} (ParseAddress : GoString → ParseResult α)
    (v : Validator) (value code : GoString) : Validator :=
  if value = [] then v
  else
    match ParseAddress value with
    | Except.error _ => v.AddError code
    | Except.ok _ => v

/-- One call of a check method of `Validator`, with its arguments. -/
inductive Check where
  | AddError (code : GoString)
  | RequiredString (value code : GoString)
  | MinLength (value : GoString) (min : Int) (code : GoString)
  | MaxLength (value : GoString) (max : Int) (code : GoString)
  | ValidEmail (value code : GoString)

/-- The state of the receiver after the call `c`. -/
def Check.run {α : Type} (ParseAddress : GoString → ParseResult α)
    (v : Validator) : Check → Validator
  | Check.AddError code => v.AddError code
  | Check.RequiredString value code => v.RequiredString value code
  | Check.MinLength value min code => v.MinLength value min code
  | Check.MaxLength value max code => v.MaxLength value max code
  | Check.ValidEmail value code => v.ValidEmail ParseAddress value code

/-- The code that the call `c` passes to the validator. -/
def Check.code : Check → GoString
  | Check.AddError code => code
  | Check.RequiredString _ code => code
  | Check.MinLength _ _ code => code
  | Check.MaxLength _ _ code => code
  | Check.ValidEmail _ code => code

/-- The call `c` fails: the condition under which the method records its code,
read on the arguments of the call. `AddError` records always; `RequiredString`
when `value == ""`; `MinLength` when `value != "" && len(value) < min`;
`MaxLength` when `value != "" && len(value) > max`; `ValidEmail` when the value
is not empty and `mail.ParseAddress` returns an error. -/
def Check.fails {α : Type} (ParseAddress : GoString → ParseResult α) : Check → Prop
  | Check.AddError _ => True
  | Check.RequiredString value _ => value = []
  | Check.MinLength value min _ => value ≠ [] ∧ (value.length : Int) < min
  | Check.MaxLength value max _ => value ≠ [] ∧ (value.length : Int) > max
  | Check.ValidEmail value _ => value ≠ [] ∧ ∃ e, ParseAddress value = Except.error e

/-! ## The Validator in memory

The definitions above give each method as a function on the sequence of
recorded failures. The definitions below keep what the Go program keeps: the
field `errors` is a slice, a view (backing array, length, capacity) of an array
in memory, `Errors` returns that slice and `AddError` assigns the result of
`append` to the field. The other check methods touch the field only by calling
`AddError`. -/

/-- A value of the interface type `error` held in the slice: `nil` (`none`) or a
`*ValidationError`. -/
abbrev GoError := Option ValidationError

/-- A slice value of type `[]error`: the backing array it views, its length and
its capacity. The package never reslices, so a slice starts at index 0 of its
backing array; the nil slice has length and capacity 0. -/
structure Slice where
  array : Nat
  len : Nat
  cap : Nat
deriving DecidableEq, Repr

/-- The memory around one `*Validator`: the backing arrays allocated so far, and
the field `errors` of the Validator. -/
structure Heap where
  arrays : List (List GoError)
  errors : Slice
deriving DecidableEq, Repr

/-- The elements of the slice `s`: the first `s.len` cells of its backing array. -/
def Slice.elems (arrays : List (List GoError)) (s : Slice) : List GoError :=
  (arrays.getD s.array []).take s.len

/-- The builtin `append(s, x)` for one element. With spare capacity the element
is written into the backing array of `s`, in place, and the result views the
same array. Otherwise a new array is allocated, large enough for the elements
of `s` and `x`; `grow` says how many spare cells the runtime adds. -/
def Slice.append (grow : Nat → Nat) (arrays : List (List GoError)) (s : Slice)
    (x : GoError) : List (List GoError) × Slice :=
  if s.len < s.cap then
    (arrays.set s.array ((arrays.getD s.array []).set s.len x),
      Slice.mk s.array (s.len + 1) s.cap)
  else
    (arrays ++ [s.elems arrays ++ x :: List.replicate (grow s.len) none],
      Slice.mk arrays.length (s.len + 1) (s.len + 1 + grow s.len))

/-- The function `New` in memory: `&Validator{}`, the field is the nil slice. -/
def Heap.New : Heap :=
  Heap.mk [] (Slice.mk 0 0 0)

/-- The method `Errors` in memory: `return v.errors`, the slice itself; nothing
is written. -/
def Heap.Errors (h : Heap) : Slice × Heap :=
  (h.errors, h)

/-- The method `HasErrors` in memory: `return len(v.errors) > 0`; nothing is
written. -/
def Heap.HasErrors (h : Heap) : Bool × Heap :=
  (decide (h.errors.len > 0), h)

/-- The method `AddError` in memory:
`v.errors = append(v.errors, &ValidationError{Code: code})`. -/
def Heap.AddError (grow : Nat → Nat) (h : Heap) (code : GoString) : Heap :=
  Heap.mk (Slice.append grow h.arrays h.errors (some (ValidationError.mk code))).1
    (Slice.append grow h.arrays h.errors (some (ValidationError.mk code))).2

/-- The statement `s[i] = e` of a caller that holds the slice `s`. An index out
of range panics (`none`). -/
def Heap.store (h : Heap) (s : Slice) (i : Nat) (e : GoError) : Option Heap :=
  if i < s.len then
    some (Heap.mk (h.arrays.set s.array ((h.arrays.getD s.array []).set i e)) h.errors)
  else none

/-- The failures a caller reads from the slice of the Validator. -/
def Heap.view (h : Heap) : List GoError :=
  h.errors.elems h.arrays

/-- The field `errors` is a well-formed slice: its length is at most its
capacity, and its capacity at most the size of its backing array. -/
def Heap.WF (h : Heap) : Prop :=
  h.errors.len ≤ h.errors.cap ∧ h.errors.cap ≤ (h.arrays.getD h.errors.array []).length

instance (h : Heap) : Decidable h.WF := by
  unfold Heap.WF
  exact inferInstance

/-- A call of a query method of `Validator`. -/
inductive Query where
  | HasErrors
  | Errors
deriving DecidableEq, Repr

/-- What a query method returns. -/
inductive QueryResult where
  | bool (b : Bool)
  | slice (s : Slice)
deriving DecidableEq, Repr

/-- The result of the query `q` and the memory after it. -/
def Query.run (h : Heap) : Query → QueryResult × Heap
  | Query.HasErrors => (QueryResult.bool h.HasErrors.1, h.HasErrors.2)
  | Query.Errors => (QueryResult.slice h.Errors.1, h.Errors.2)

/-- The memory after the queries `qs`, called one after the other. -/
def Query.runAll (h : Heap) (qs : List Query) : Heap :=
  qs.foldl (fun m q => (q.run m).2) h

/-! ## Helper lemmas -/

theorem errors_append_singleton_ne (l : List ValidationError) (e : ValidationError) :
    l ++ [e] ≠ l := by
  intro h
  have hlen := congrArg List.length h
  simp at hlen

theorem AddError_errors (v : Validator) (code : GoString) :
    (v.AddError code).errors = v.errors ++ [ValidationError.mk code] := rfl

theorem AddError_errors_ne (v : Validator) (code : GoString) :
    (v.AddError code).errors ≠ v.errors :=
  errors_append_singleton_ne v.errors (ValidationError.mk code)

theorem ite_AddError_errors_eq_append (p : Prop) [Decidable p] (v : Validator)
    (code : GoString) :
    (if p then v.AddError code else v).errors = v.errors ++ [ValidationError.mk code]
      ↔ p := by
  by_cases h : p
  · rw [if_pos h]
    exact ⟨fun _ => h, fun _ => AddError_errors v code⟩
  · rw [if_neg h]
    exact ⟨fun e => absurd e.symm (errors_append_singleton_ne _ _), fun hp => absurd hp h⟩

theorem ite_AddError_errors_eq_self (p : Prop) [Decidable p] (v : Validator)
    (code : GoString) :
    (if p then v.AddError code else v).errors = v.errors ↔ ¬ p := by
  by_cases h : p
  · rw [if_pos h]
    exact ⟨fun e => absurd e (AddError_errors_ne v code), fun hn => absurd h hn⟩
  · rw [if_neg h]
    exact ⟨fun _ => h, fun _ => rfl⟩

theorem foldl_AddError_errors (codes : List GoString) (v : Validator) :
    (codes.foldl Validator.AddError v).errors
      = v.errors ++ codes.map ValidationError.mk := by
  induction codes generalizing v with
  | nil => simp
  | cons c cs ih => simp [List.foldl_cons, ih, AddError_errors]

theorem ValidEmail_eq_or {α : Type} (ParseAddress : GoString → ParseResult α)
    (v : Validator) (value code : GoString) :
    (v.ValidEmail ParseAddress value code = v.AddError code
        ∧ value ≠ [] ∧ ∃ e, ParseAddress value = Except.error e)
    ∨ (v.ValidEmail ParseAddress value code = v
        ∧ (value = [] ∨ ∃ a, ParseAddress value = Except.ok a)) := by
  unfold Validator.ValidEmail
  by_cases h : value = []
  · exact Or.inr ⟨by simp [h], Or.inl h⟩
  · cases hp : ParseAddress value with
    | error e => exact Or.inl ⟨by simp [h], h, e, rfl⟩
    | ok a => exact Or.inr ⟨by simp [h], Or.inr ⟨a, rfl⟩⟩

theorem run_eq_or {α : Type} (ParseAddress : GoString → ParseResult α)
    (v : Validator) (c : Check) :
    c.run ParseAddress v = v ∨ c.run ParseAddress v = v.AddError c.code := by
  cases c with
  | AddError code => exact Or.inr rfl
  | RequiredString value code =>
    simp only [Check.run, Check.code, Validator.RequiredString]
    split
    · exact Or.inr rfl
    · exact Or.inl rfl
  | MinLength value min code =>
    simp only [Check.run, Check.code, Validator.MinLength]
    split
    · exact Or.inr rfl
    · exact Or.inl rfl
  | MaxLength value max code =>
    simp only [Check.run, Check.code, Validator.MaxLength]
    split
    · exact Or.inr rfl
    · exact Or.inl rfl
  | ValidEmail value code =>
    rcases ValidEmail_eq_or ParseAddress v value code with h | h
    · exact Or.inr h.1
    · exact Or.inl h.1

theorem run_extends_errors {α : Type} (ParseAddress : GoString → ParseResult α)
    (v : Validator) (c : Check) :
    v.errors <+: (c.run ParseAddress v).errors := by
  rcases run_eq_or ParseAddress v c with h | h
  · rw [h]
  · rw [h, AddError_errors]
    exact List.prefix_append _ _

theorem foldl_run_extends_errors {α : Type} (ParseAddress : GoString → ParseResult α)
    (cs : List Check) (v : Validator) :
    v.errors <+: (cs.foldl (Check.run ParseAddress) v).errors := by
  induction cs generalizing v with
  | nil => exact List.prefix_refl _
  | cons c cs ih =>
    rw [List.foldl_cons]
    exact List.IsPrefix.trans (run_extends_errors ParseAddress v c) (ih _)

theorem lit_length_aux (cs : List Char) :
    (cs.flatMap String.utf8EncodeChar).length = String.utf8Len cs := by
  induction cs with
  | nil => rfl
  | cons c cs ih =>
    rw [List.flatMap_cons, List.length_append, ih, String.length_utf8EncodeChar,
      String.utf8Len_cons, Nat.add_comm]

theorem lit_length (s : String) : (GoString.lit s).length = s.utf8ByteSize := by
  cases s with
  | mk cs => exact lit_length_aux cs

theorem take_succ_set {α : Type} (l : List α) (n : Nat) (x : α) (h : n < l.length) :
    (l.set n x).take (n + 1) = l.take n ++ [x] := by
  induction l generalizing n with
  | nil => simp at h
  | cons a as ih =>
    cases n with
    | zero => simp
    | succ m =>
      have hm : m < as.length := by simpa using h
      simp [List.set_cons_succ, List.take_succ_cons, ih m hm]

theorem WF_array_lt (h : Heap) (hwf : h.WF) (hpos : 0 < h.errors.cap) :
    h.errors.array < h.arrays.length := by
  by_contra hge
  have hnone : h.arrays[h.errors.array]? = none := List.getElem?_eq_none (by omega)
  have h2 := hwf.2
  simp [hnone] at h2
  omega

theorem getD_set_self (arrays : List (List GoError)) (a : Nat) (x : List GoError)
    (ha : a < arrays.length) : (arrays.set a x).getD a [] = x := by
  simp [List.getElem?_set_self ha]

theorem getD_append_new (arrays : List (List GoError)) (x : List GoError) :
    (arrays ++ [x]).getD arrays.length [] = x := by
  simp

theorem Heap_AddError_view (grow : Nat → Nat) (h : Heap) (code : GoString) (hwf : h.WF) :
    (h.AddError grow code).view = h.view ++ [some (ValidationError.mk code)] := by
  unfold Heap.AddError Heap.view Slice.append
  by_cases hlt : h.errors.len < h.errors.cap
  · have ha := WF_array_lt h hwf (by omega)
    have hlen : h.errors.len < (h.arrays.getD h.errors.array []).length := by
      have := hwf.2
      omega
    simp only [if_pos hlt, Slice.elems]
    rw [getD_set_self _ _ _ ha, take_succ_set _ _ _ hlen]
  · have hlen : h.errors.len ≤ (h.arrays.getD h.errors.array []).length := by
      have := hwf.1
      have := hwf.2
      omega
    simp only [if_neg hlt, Slice.elems]
    rw [getD_append_new]
    have hl : (List.take h.errors.len (h.arrays.getD h.errors.array [])
        ++ [some (ValidationError.mk code)]).length = h.errors.len + 1 := by
      rw [List.length_append, List.length_take, Nat.min_eq_left hlen]
      rfl
    have : List.take h.errors.len (h.arrays.getD h.errors.array [])
          ++ some (ValidationError.mk code) :: List.replicate (grow h.errors.len) none
        = (List.take h.errors.len (h.arrays.getD h.errors.array [])
          ++ [some (ValidationError.mk code)]) ++ List.replicate (grow h.errors.len) none := by
      simp
    rw [this, List.take_left' hl]

theorem Heap_AddError_WF (grow : Nat → Nat) (h : Heap) (code : GoString) (hwf : h.WF) :
    (h.AddError grow code).WF := by
  unfold Heap.AddError Heap.WF Slice.append
  by_cases hlt : h.errors.len < h.errors.cap
  · have ha := WF_array_lt h hwf (by omega)
    simp only [if_pos hlt]
    rw [getD_set_self _ _ _ ha]
    have := hwf.2
    simp only [List.length_set]
    omega
  · have hlen : h.errors.len ≤ (h.arrays.getD h.errors.array []).length := by
      have := hwf.1
      have := hwf.2
      omega
    simp only [if_neg hlt, Slice.elems]
    refine ⟨by omega, ?_⟩
    rw [getD_append_new, List.length_append, List.length_take, Nat.min_eq_left hlen, List.length_cons,
      List.length_replicate]
    omega

theorem Heap_store_view (h : Heap) (i : Nat) (e : GoError) (hwf : h.WF)
    (hi : i < h.errors.len) :
    ∃ h2, h.store h.errors i e = some h2 ∧ h2.errors = h.errors
      ∧ h2.view = h.view.set i e := by
  have ha := WF_array_lt h hwf (by have := hwf.1; omega)
  refine ⟨_, if_pos hi, rfl, ?_⟩
  simp only [Heap.view, Slice.elems]
  rw [getD_set_self _ _ _ ha, List.set_take]

theorem Heap_New_WF : Heap.New.WF := by
  decide

theorem Heap_foldl_AddError (grow : Nat → Nat) (codes : List GoString) (h : Heap)
    (hwf : h.WF) :
    (codes.foldl (Heap.AddError grow) h).WF
    ∧ (codes.foldl (Heap.AddError grow) h).view
        = h.view ++ codes.map (fun c => some (ValidationError.mk c)) := by
  induction codes generalizing h with
  | nil => simp [hwf]
  | cons c cs ih =>
    obtain ⟨h1, h2⟩ := ih (h.AddError grow c) (Heap_AddError_WF grow h c hwf)
    refine ⟨h1, ?_⟩
    rw [List.foldl_cons, h2, Heap_AddError_view grow h c hwf]
    simp

/-- The memory model refines the sequence model: after the same calls of
`AddError` on a fresh Validator, the slice of the Validator holds the failures
of the sequence model, in the same order. -/
theorem Heap_refines_Validator (grow : Nat → Nat) (codes : List GoString) :
    (codes.foldl (Heap.AddError grow) Heap.New).view
      = (codes.foldl Validator.AddError New).errors.map some := by
  rw [(Heap_foldl_AddError grow codes Heap.New Heap_New_WF).2, foldl_AddError_errors]
  simp [Heap.New, Heap.view, Slice.elems, New]

theorem Query_run_snd (h : Heap) (q : Query) : (q.run h).2 = h := by
  cases q with
  | HasErrors => rfl
  | Errors => rfl

theorem Query_runAll_eq (h : Heap) (qs : List Query) : Query.runAll h qs = h := by
  induction qs with
  | nil => rfl
  | cons q qs ih =>
    unfold Query.runAll at ih ⊢
    rw [List.foldl_cons, Query_run_snd]
    exact ih

theorem run_of_fails {α : Type} (ParseAddress : GoString → ParseResult α)
    (v : Validator) (c : Check) (hc : c.fails ParseAddress) :
    c.run ParseAddress v = v.AddError c.code := by
  cases c with
  | AddError code => rfl
  | RequiredString value code =>
    have hv : value = [] := hc
    simp only [Check.run, Check.code, Validator.RequiredString, if_pos hv]
  | MinLength value min code =>
    have hv : value ≠ [] ∧ (value.length : Int) < min := hc
    simp only [Check.run, Check.code, Validator.MinLength, if_pos hv]
  | MaxLength value max code =>
    have hv : value ≠ [] ∧ (value.length : Int) > max := hc
    simp only [Check.run, Check.code, Validator.MaxLength, if_pos hv]
  | ValidEmail value code =>
    have hv : value ≠ [] ∧ ∃ e, ParseAddress value = Except.error e := hc
    obtain ⟨hne, e, he⟩ := hv
    simp only [Check.run, Check.code, Validator.ValidEmail, if_neg hne, he]

theorem foldl_run_of_fails {α : Type} (ParseAddress : GoString → ParseResult α)
    (cs : List Check) (v : Validator) (hcs : ∀ c ∈ cs, c.fails ParseAddress) :
    (cs.foldl (Check.run ParseAddress) v).errors
      = v.errors ++ cs.map (fun c => ValidationError.mk c.code) := by
  induction cs generalizing v with
  | nil => simp
  | cons c cs ih =>
    rw [List.foldl_cons, ih _ (fun d hd => hcs d (List.mem_cons_of_mem c hd)),
      run_of_fails ParseAddress v c (hcs c (List.mem_cons_self c cs)), AddError_errors]
    simp

/-! ## The claims -/

/-- C1: the Validator returned by `New` has `HasErrors() = false` and `Errors()`
is the empty sequence, of length 0. -/
theorem New_no_errors :
    New.HasErrors = false ∧ New.Errors = [] ∧ New.Errors.length = 0 := by
  refine ⟨rfl, rfl, rfl⟩

/-- C2: for every Validator state and every code, `AddError(code)` makes the
failure sequence the previous sequence followed by exactly one new entry whose
text is `code` (the empty code and a code already recorded included); on a
fresh Validator `Errors()` then has length 1 and its sole entry has the text
`code`. -/
theorem AddError_appends_one (v : Validator) (code : GoString) :
    (∃ e : ValidationError, (v.AddError code).Errors = v.Errors ++ [e] ∧ e.Error = code)
    ∧ (v.AddError code).Errors.length = v.Errors.length + 1
    ∧ (v.AddError []).Errors = v.Errors ++ [ValidationError.mk []]
    ∧ ((v.AddError code).AddError code).Errors
        = v.Errors ++ [ValidationError.mk code, ValidationError.mk code]
    ∧ (New.AddError code).Errors.length = 1
    ∧ (New.AddError code).Errors.map ValidationError.Error = [code] := by
  refine ⟨⟨ValidationError.mk code, rfl, rfl⟩, ?_, rfl, ?_, rfl, rfl⟩
  · simp [Validator.Errors, Validator.AddError]
  · simp [Validator.Errors, Validator.AddError]

/-- C3: for every Validator state, value and code `c`, `RequiredString(value, c)`
appends `c` to the failure sequence if and only if `value` is the empty string,
and leaves the sequence unchanged for every other value, such as `" "`. -/
theorem RequiredString_appends_iff_empty (v : Validator) (value c : GoString) :
    ((v.RequiredString value c).Errors = v.Errors ++ [ValidationError.mk c] ↔ value = [])
    ∧ ((v.RequiredString value c).Errors = v.Errors ↔ value ≠ [])
    ∧ (v.RequiredString (GoString.lit " ") c).Errors = v.Errors := by
  refine ⟨?_, ?_, ?_⟩
  · exact ite_AddError_errors_eq_append (value = []) v c
  · exact ite_AddError_errors_eq_self (value = []) v c
  · exact (ite_AddError_errors_eq_self (GoString.lit " " = []) v c).mpr (by decide)

/-- C4: for every Validator state, value `v`, integer `m` (zero and negative
included) and code `c`, `MinLength(v, m, c)` appends `c` if and only if `v` is
non-empty and `len(v) < m`; otherwise the failure sequence is unchanged, and
nothing is appended for the empty value whatever `m` is. -/
theorem MinLength_appends_iff (s : Validator) (v : GoString) (m : Int) (c : GoString) :
    ((s.MinLength v m c).Errors = s.Errors ++ [ValidationError.mk c]
        ↔ (v ≠ [] ∧ (v.length : Int) < m))
    ∧ ((s.MinLength v m c).Errors = s.Errors ↔ ¬ (v ≠ [] ∧ (v.length : Int) < m))
    ∧ (s.MinLength [] m c).Errors = s.Errors := by
  refine ⟨?_, ?_, ?_⟩
  · exact ite_AddError_errors_eq_append (v ≠ [] ∧ (v.length : Int) < m) s c
  · exact ite_AddError_errors_eq_self (v ≠ [] ∧ (v.length : Int) < m) s c
  · exact (ite_AddError_errors_eq_self _ s c).mpr (fun h => h.1 rfl)

/-- C5: for every Validator state, value `v`, integer `m` (zero and negative
included) and code `c`, `MaxLength(v, m, c)` appends `c` if and only if `v` is
non-empty and `len(v) > m`; otherwise the failure sequence is unchanged, and
nothing is appended for the empty value whatever `m` is, negative `m` included. -/
theorem MaxLength_appends_iff (s : Validator) (v : GoString) (m : Int) (c : GoString) :
    ((s.MaxLength v m c).Errors = s.Errors ++ [ValidationError.mk c]
        ↔ (v ≠ [] ∧ (v.length : Int) > m))
    ∧ ((s.MaxLength v m c).Errors = s.Errors ↔ ¬ (v ≠ [] ∧ (v.length : Int) > m))
    ∧ (s.MaxLength [] m c).Errors = s.Errors := by
  refine ⟨?_, ?_, ?_⟩
  · exact ite_AddError_errors_eq_append (v ≠ [] ∧ (v.length : Int) > m) s c
  · exact ite_AddError_errors_eq_self (v ≠ [] ∧ (v.length : Int) > m) s c
  · exact (ite_AddError_errors_eq_self _ s c).mpr (fun h => h.1 rfl)

/-- C6: for every Validator state and code `c`, `ValidEmail("", c)` leaves the
failure sequence unchanged (whatever the parser would say of the empty string);
for a non-empty value `ValidEmail(value, c)` appends `c` exactly when
`mail.ParseAddress(value)` returns an error, and leaves the sequence unchanged
exactly when it returns an address. -/
theorem ValidEmail_appends_iff_parse_fails {α : Type}
    (ParseAddress : GoString → ParseResult α) (v : Validator) (value c : GoString) :
    (v.ValidEmail ParseAddress [] c).Errors = v.Errors
    ∧ ((v.ValidEmail ParseAddress value c).Errors = v.Errors ++ [ValidationError.mk c]
        ↔ (value ≠ [] ∧ ∃ e, ParseAddress value = Except.error e))
    ∧ ((v.ValidEmail ParseAddress value c).Errors = v.Errors
        ↔ (value = [] ∨ ∃ a, ParseAddress value = Except.ok a)) := by
  refine ⟨rfl, ?_, ?_⟩
  · rcases ValidEmail_eq_or ParseAddress v value c with ⟨h, hne, e, he⟩ | ⟨h, h0⟩
    · exact ⟨fun _ => ⟨hne, e, he⟩, fun _ => by rw [h]; rfl⟩
    · refine ⟨fun heq => ?_, fun hfail => ?_⟩
      · rw [h] at heq
        exact absurd heq.symm (errors_append_singleton_ne _ _)
      · obtain ⟨hne, e, he⟩ := hfail
        rcases h0 with h0 | ⟨a, ha⟩
        · exact absurd h0 hne
        · rw [he] at ha
          cases ha
  · rcases ValidEmail_eq_or ParseAddress v value c with ⟨h, hne, e, he⟩ | ⟨h, h0⟩
    · refine ⟨fun heq => ?_, fun hok => ?_⟩
      · rw [h] at heq
        exact absurd heq (AddError_errors_ne v c)
      · rcases hok with h0 | ⟨a, ha⟩
        · exact absurd h0 hne
        · rw [he] at ha
          cases ha
    · exact ⟨fun _ => h0, fun _ => by rw [h]⟩

/-- C7: for every Validator state and code `c`, `ValidEmail("user@example.com", c)`
does not append `c`, and `ValidEmail("not-an-email", c)` appends `c`; the parser
is `mail.ParseAddress` as the spec describes it. -/
theorem ValidEmail_examples (v : Validator) (c : GoString) :
    (v.ValidEmail mail.ParseAddress (GoString.lit "user@example.com") c).Errors = v.Errors
    ∧ (v.ValidEmail mail.ParseAddress (GoString.lit "not-an-email") c).Errors
        = v.Errors ++ [ValidationError.mk c] := by
  have hok : mail.ParseAddress (GoString.lit "user@example.com")
      = Except.ok (mail.Address.mk [] (GoString.lit "user@example.com")) := by rfl
  have hbad : mail.ParseAddress (GoString.lit "not-an-email")
      = Except.error (GoString.lit "mail: no address") := by rfl
  have h1 : GoString.lit "user@example.com" ≠ [] := by decide
  have h2 : GoString.lit "not-an-email" ≠ [] := by decide
  constructor
  · simp only [Validator.ValidEmail, if_neg h1, hok]
  · simp only [Validator.ValidEmail, if_neg h2, hbad]
    rfl

/-- C8: for every Validator state, `HasErrors()` returns true if and only if the
failure sequence is non-empty, that is if and only if `Errors()` has a length
greater than 0. -/
theorem HasErrors_iff_nonempty (v : Validator) :
    (v.HasErrors = true ↔ v.Errors ≠ [])
    ∧ (v.HasErrors = true ↔ v.Errors.length > 0)
    ∧ (v.HasErrors = false ↔ v.Errors = []) := by
  cases v with
  | mk errors =>
    cases errors with
    | nil => simp [Validator.HasErrors, Validator.Errors]
    | cons e es => simp [Validator.HasErrors, Validator.Errors]

/-- C9: after the calls `AddError(c1)`, ..., `AddError(cn)` on a fresh Validator,
`Errors()` has exactly `n` entries, in insertion order, and the `Error()` text of
the i-th entry is `ci`; `ValidationError.Error()` returns the `Code` unchanged. -/
theorem Errors_after_AddErrors (codes : List GoString) :
    (codes.foldl Validator.AddError New).Errors.length = codes.length
    ∧ (codes.foldl Validator.AddError New).Errors.map ValidationError.Error = codes
    ∧ (∀ i : Nat, ((codes.foldl Validator.AddError New).Errors[i]?).map
          ValidationError.Error = codes[i]?)
    ∧ (∀ e : ValidationError, e.Error = e.Code) := by
  have hmap : (codes.foldl Validator.AddError New).Errors.map ValidationError.Error
      = codes := by
    simp only [Validator.Errors, foldl_AddError_errors, New, List.nil_append,
      List.map_map]
    exact List.map_id codes
  refine ⟨?_, hmap, ?_, fun _ => rfl⟩
  · have := congrArg List.length hmap
    simpa using this
  · intro i
    rw [← List.getElem?_map, hmap]

/-- C10: append-only invariant. For every Validator state and every call of a
check method (`AddError`, `RequiredString`, `MinLength`, `MaxLength`,
`ValidEmail`) with any arguments, the failure sequence after the call is the
sequence before the call with nothing or with one entry, of the code passed,
appended at its end; every failure recorded before is still there, at the same
position and unchanged (the first entries of the new sequence are the old
sequence), also after any number of calls. -/
theorem checks_append_only {α : Type} (ParseAddress : GoString → ParseResult α)
    (v : Validator) (c : Check) :
    ((c.run ParseAddress v).Errors = v.Errors
      ∨ (c.run ParseAddress v).Errors = v.Errors ++ [ValidationError.mk c.code])
    ∧ v.Errors <+: (c.run ParseAddress v).Errors
    ∧ (c.run ParseAddress v).Errors.take v.Errors.length = v.Errors
    ∧ (∀ cs : List Check, v.Errors <+: (cs.foldl (Check.run ParseAddress) v).Errors) := by
  refine ⟨?_, run_extends_errors ParseAddress v c, ?_,
    fun cs => foldl_run_extends_errors ParseAddress cs v⟩
  · rcases run_eq_or ParseAddress v c with h | h
    · exact Or.inl (by rw [h])
    · exact Or.inr (by rw [h]; rfl)
  · obtain ⟨t, ht⟩ := run_extends_errors ParseAddress v c
    simp only [Validator.Errors]
    rw [← ht]
    exact List.take_left _ _

/-- C11: order preservation. When two checks that both fail (the failure
condition of each holds on its arguments) are invoked one after the other on a
fresh Validator, `Errors()` lists the code of the first check and then the code
of the second, and nothing else; on any Validator the two codes are appended in
that order, and so are the codes of any number of failing checks;
`RequiredString("", "a")` followed by `MaxLength("toolong", 3, "b")` gives the
texts `["a", "b"]`. -/
theorem order_of_two_failing_checks :
    (∀ (α : Type) (ParseAddress : GoString → ParseResult α) (c1 c2 : Check),
        c1.fails ParseAddress → c2.fails ParseAddress →
        (c2.run ParseAddress (c1.run ParseAddress New)).Errors.map ValidationError.Error
          = [c1.code, c2.code])
    ∧ (∀ (α : Type) (ParseAddress : GoString → ParseResult α) (v : Validator)
        (c1 c2 : Check),
        c1.fails ParseAddress → c2.fails ParseAddress →
        (c2.run ParseAddress (c1.run ParseAddress v)).Errors
          = v.Errors ++ [ValidationError.mk c1.code, ValidationError.mk c2.code])
    ∧ (∀ (α : Type) (ParseAddress : GoString → ParseResult α) (cs : List Check),
        (∀ c ∈ cs, c.fails ParseAddress) →
        (cs.foldl (Check.run ParseAddress) New).Errors.map ValidationError.Error
          = cs.map Check.code)
    ∧ ((New.RequiredString (GoString.lit "") (GoString.lit "a")).MaxLength
          (GoString.lit "toolong") 3 (GoString.lit "b")).Errors.map ValidationError.Error
        = [GoString.lit "a", GoString.lit "b"] := by
  have hany : ∀ (α : Type) (P : GoString → ParseResult α) (v : Validator) (c1 c2 : Check),
      c1.fails P → c2.fails P →
      (c2.run P (c1.run P v)).Errors
        = v.Errors ++ [ValidationError.mk c1.code, ValidationError.mk c2.code] := by
    intro α P v c1 c2 h1 h2
    rw [run_of_fails P _ c2 h2, run_of_fails P v c1 h1]
    simp [Validator.Errors, Validator.AddError]
  refine ⟨?_, hany, ?_, by decide⟩
  · intro α P c1 c2 h1 h2
    rw [hany α P New c1 c2 h1 h2]
    rfl
  · intro α P cs hcs
    simp only [Validator.Errors]
    rw [foldl_run_of_fails P cs New hcs]
    simp only [New, List.nil_append, List.map_map]
    rfl

/-- The general part of C11 at the two calls of the example: `RequiredString`
fails on the empty value, `MaxLength` fails on `"toolong"` with `max = 3`. -/
theorem order_of_two_failing_checks_witness :
    (Check.RequiredString (GoString.lit "") (GoString.lit "a")).fails mail.ParseAddress
    ∧ (Check.MaxLength (GoString.lit "toolong") 3 (GoString.lit "b")).fails mail.ParseAddress
    ∧ ((Check.MaxLength (GoString.lit "toolong") 3 (GoString.lit "b")).run mail.ParseAddress
        ((Check.RequiredString (GoString.lit "") (GoString.lit "a")).run
          mail.ParseAddress New)).Errors.map ValidationError.Error
      = [GoString.lit "a", GoString.lit "b"] :=
  have h1 : (Check.RequiredString (GoString.lit "") (GoString.lit "a")).fails
      mail.ParseAddress := by
    show GoString.lit "" = []
    decide
  have h2 : (Check.MaxLength (GoString.lit "toolong") 3 (GoString.lit "b")).fails
      mail.ParseAddress := by
    show GoString.lit "toolong" ≠ [] ∧ ((GoString.lit "toolong").length : Int) > 3
    decide
  ⟨h1, h2, order_of_two_failing_checks.1 mail.Address mail.ParseAddress
    (Check.RequiredString (GoString.lit "") (GoString.lit "a"))
    (Check.MaxLength (GoString.lit "toolong") 3 (GoString.lit "b")) h1 h2⟩

/-- C13: failing scenario. On a fresh Validator, `RequiredString("", "name.required")`,
then `ValidEmail("bad", "email.invalid")`, then
`MaxLength("0123456789", 5, "bio.max")` give `Errors()` with the texts
`["name.required", "email.invalid", "bio.max"]` and `HasErrors() == true`; this
holds for every parser that rejects `"bad"`, and `mail.ParseAddress` as the spec
describes it rejects `"bad"`. -/
theorem failing_scenario :
    (∀ (α : Type) (ParseAddress : GoString → ParseResult α),
        (∃ e, ParseAddress (GoString.lit "bad") = Except.error e) →
        ((((New.RequiredString (GoString.lit "") (GoString.lit "name.required")).ValidEmail
            ParseAddress (GoString.lit "bad") (GoString.lit "email.invalid")).MaxLength
            (GoString.lit "0123456789") 5 (GoString.lit "bio.max")).Errors.map
              ValidationError.Error
          = [GoString.lit "name.required", GoString.lit "email.invalid",
              GoString.lit "bio.max"]))
    ∧ (((New.RequiredString (GoString.lit "") (GoString.lit "name.required")).ValidEmail
          mail.ParseAddress (GoString.lit "bad") (GoString.lit "email.invalid")).MaxLength
          (GoString.lit "0123456789") 5 (GoString.lit "bio.max")).Errors.map
            ValidationError.Error
        = [GoString.lit "name.required", GoString.lit "email.invalid",
            GoString.lit "bio.max"]
    ∧ (((New.RequiredString (GoString.lit "") (GoString.lit "name.required")).ValidEmail
          mail.ParseAddress (GoString.lit "bad") (GoString.lit "email.invalid")).MaxLength
          (GoString.lit "0123456789") 5 (GoString.lit "bio.max")).HasErrors = true := by
  have hgen : ∀ (α : Type) (ParseAddress : GoString → ParseResult α),
      (∃ e, ParseAddress (GoString.lit "bad") = Except.error e) →
      ((New.RequiredString (GoString.lit "") (GoString.lit "name.required")).ValidEmail
          ParseAddress (GoString.lit "bad") (GoString.lit "email.invalid")).MaxLength
          (GoString.lit "0123456789") 5 (GoString.lit "bio.max")
        = Validator.mk [ValidationError.mk (GoString.lit "name.required"),
            ValidationError.mk (GoString.lit "email.invalid"),
            ValidationError.mk (GoString.lit "bio.max")] := by
    intro α P hbad
    obtain ⟨e, he⟩ := hbad
    have hne : GoString.lit "bad" ≠ [] := by decide
    have h2 : ∀ w : Validator, w.ValidEmail P (GoString.lit "bad")
        (GoString.lit "email.invalid") = w.AddError (GoString.lit "email.invalid") := by
      intro w
      simp only [Validator.ValidEmail, if_neg hne, he]
    rw [h2]
    decide
  have hbad : ∃ e, mail.ParseAddress (GoString.lit "bad") = Except.error e :=
    ⟨GoString.lit "mail: no address", by rfl⟩
  refine ⟨fun α P h => ?_, ?_, ?_⟩
  · rw [hgen α P h]
    rfl
  · rw [hgen _ mail.ParseAddress hbad]
    rfl
  · rw [hgen _ mail.ParseAddress hbad]
    rfl

/-- The general part of C13 at the parser `mail.ParseAddress`. -/
theorem failing_scenario_witness :
    (((New.RequiredString (GoString.lit "") (GoString.lit "name.required")).ValidEmail
          mail.ParseAddress (GoString.lit "bad") (GoString.lit "email.invalid")).MaxLength
          (GoString.lit "0123456789") 5 (GoString.lit "bio.max")).Errors.map
            ValidationError.Error
        = [GoString.lit "name.required", GoString.lit "email.invalid",
            GoString.lit "bio.max"] :=
  failing_scenario.1 mail.Address mail.ParseAddress
    ⟨GoString.lit "mail: no address", by rfl⟩

/-- C14: passing scenario. On a fresh Validator, `RequiredString("Ann", "name.required")`,
`ValidEmail("ann@x.com", "email.invalid")`, `MinLength("hi", 0, c)` and
`MaxLength("hi", 5, "bio.max")` record nothing: `Errors()` is empty and
`HasErrors() == false`; this holds for every parser that accepts `"ann@x.com"`,
and `mail.ParseAddress` as the spec describes it accepts `"ann@x.com"`. -/
theorem passing_scenario (c : GoString) :
    (∀ (α : Type) (ParseAddress : GoString → ParseResult α),
        (∃ a, ParseAddress (GoString.lit "ann@x.com") = Except.ok a) →
        ((((New.RequiredString (GoString.lit "Ann") (GoString.lit "name.required")).ValidEmail
            ParseAddress (GoString.lit "ann@x.com") (GoString.lit "email.invalid")).MinLength
            (GoString.lit "hi") 0 c).MaxLength (GoString.lit "hi") 5
            (GoString.lit "bio.max")).Errors = [])
    ∧ ((((New.RequiredString (GoString.lit "Ann") (GoString.lit "name.required")).ValidEmail
          mail.ParseAddress (GoString.lit "ann@x.com") (GoString.lit "email.invalid")).MinLength
          (GoString.lit "hi") 0 c).MaxLength (GoString.lit "hi") 5
          (GoString.lit "bio.max")).Errors = []
    ∧ ((((New.RequiredString (GoString.lit "Ann") (GoString.lit "name.required")).ValidEmail
          mail.ParseAddress (GoString.lit "ann@x.com") (GoString.lit "email.invalid")).MinLength
          (GoString.lit "hi") 0 c).MaxLength (GoString.lit "hi") 5
          (GoString.lit "bio.max")).HasErrors = false := by
  have hgen : ∀ (α : Type) (ParseAddress : GoString → ParseResult α),
      (∃ a, ParseAddress (GoString.lit "ann@x.com") = Except.ok a) →
      (((New.RequiredString (GoString.lit "Ann") (GoString.lit "name.required")).ValidEmail
          ParseAddress (GoString.lit "ann@x.com") (GoString.lit "email.invalid")).MinLength
          (GoString.lit "hi") 0 c).MaxLength (GoString.lit "hi") 5
          (GoString.lit "bio.max") = New := by
    intro α P hok
    obtain ⟨a, ha⟩ := hok
    have hne : GoString.lit "ann@x.com" ≠ [] := by decide
    have h1 : New.RequiredString (GoString.lit "Ann") (GoString.lit "name.required")
        = New := by decide
    have h2 : New.ValidEmail P (GoString.lit "ann@x.com") (GoString.lit "email.invalid")
        = New := by
      simp only [Validator.ValidEmail, if_neg hne, ha]
    have h3 : New.MinLength (GoString.lit "hi") 0 c = New := by
      have hlen : ¬ (GoString.lit "hi" ≠ [] ∧ ((GoString.lit "hi").length : Int) < 0) := by
        decide
      simp only [Validator.MinLength, if_neg hlen]
    have h4 : New.MaxLength (GoString.lit "hi") 5 (GoString.lit "bio.max") = New := by
      decide
    rw [h1, h2, h3, h4]
  have hok : ∃ a, mail.ParseAddress (GoString.lit "ann@x.com") = Except.ok a :=
    ⟨mail.Address.mk [] (GoString.lit "ann@x.com"), by rfl⟩
  refine ⟨fun α P h => ?_, ?_, ?_⟩
  · rw [hgen α P h]
    rfl
  · rw [hgen _ mail.ParseAddress hok]
    rfl
  · rw [hgen _ mail.ParseAddress hok]
    rfl

/-- The general part of C14 at the parser `mail.ParseAddress` and the code `"bio.min"`. -/
theorem passing_scenario_witness :
    ((((New.RequiredString (GoString.lit "Ann") (GoString.lit "name.required")).ValidEmail
        mail.ParseAddress (GoString.lit "ann@x.com") (GoString.lit "email.invalid")).MinLength
        (GoString.lit "hi") 0 (GoString.lit "bio.min")).MaxLength (GoString.lit "hi") 5
        (GoString.lit "bio.max")).Errors = [] :=
  (passing_scenario (GoString.lit "bio.min")).1 mail.Address mail.ParseAddress
    ⟨mail.Address.mk [] (GoString.lit "ann@x.com"), by rfl⟩

/-- C15: the length that `MinLength` and `MaxLength` compare is the number of
bytes of the value, not its number of characters. The value `"é"` is one
character stored in the two bytes `0xC3 0xA9`: `MaxLength("é", 1, c)` appends `c`
and `MinLength("é", 2, c)` does not; for every string literal the compared
length is its UTF-8 byte size. -/
theorem length_is_byte_count (v : Validator) (c : GoString) :
    GoString.lit "é" = [0xC3, 0xA9]
    ∧ "é".length = 1
    ∧ (v.MaxLength (GoString.lit "é") 1 c).Errors = v.Errors ++ [ValidationError.mk c]
    ∧ (v.MinLength (GoString.lit "é") 2 c).Errors = v.Errors
    ∧ (∀ (s : String) (m : Int),
        ((v.MinLength (GoString.lit s) m c).Errors = v.Errors ++ [ValidationError.mk c]
          ↔ (s ≠ "" ∧ (s.utf8ByteSize : Int) < m))
        ∧ ((v.MaxLength (GoString.lit s) m c).Errors = v.Errors ++ [ValidationError.mk c]
          ↔ (s ≠ "" ∧ (s.utf8ByteSize : Int) > m))) := by
  have hlit : ∀ s : String, GoString.lit s ≠ [] ↔ s ≠ "" := by
    intro s
    have h1 : GoString.lit s = [] ↔ (GoString.lit s).length = 0 :=
      List.length_eq_zero.symm
    have h2 : s = "" ↔ s.utf8ByteSize = 0 := by
      cases s with
      | mk cs =>
        rw [String.utf8ByteSize_mk, String.utf8Len_eq_zero]
        exact ⟨fun h => congrArg String.data h, fun h => by rw [h]⟩
    rw [Ne, Ne, h1, h2, lit_length]
  refine ⟨by decide, by decide, ?_, ?_, ?_⟩
  · exact (ite_AddError_errors_eq_append _ v c).mpr (by decide)
  · exact (ite_AddError_errors_eq_self _ v c).mpr (by decide)
  · intro s m
    constructor
    · refine (ite_AddError_errors_eq_append _ v c).trans ?_
      rw [hlit, lit_length]
    · refine (ite_AddError_errors_eq_append _ v c).trans ?_
      rw [hlit, lit_length]

/-- C17: `RequiredString` and `MinLength` do not duplicate each other. For every
Validator state, value, integer `min` and codes `c1`, `c2`, the calls
`RequiredString(value, c1)` and then `MinLength(value, min, c2)` append at most
one failure: `c1` alone for the empty value, `c2` alone for a non-empty value
shorter than `min`, nothing otherwise; never both. -/
theorem RequiredString_MinLength_at_most_one (v : Validator) (value : GoString)
    (min : Int) (c1 c2 : GoString) :
    ((v.RequiredString value c1).MinLength value min c2).Errors
        = (if value = [] then v.Errors ++ [ValidationError.mk c1]
           else if (value.length : Int) < min then v.Errors ++ [ValidationError.mk c2]
           else v.Errors)
    ∧ ((v.RequiredString value c1).MinLength value min c2).Errors.length
        ≤ v.Errors.length + 1
    ∧ ((v.RequiredString value c1).MinLength value min c2).Errors
        ≠ v.Errors ++ [ValidationError.mk c1, ValidationError.mk c2] := by
  have key : ((v.RequiredString value c1).MinLength value min c2).Errors
        = (if value = [] then v.Errors ++ [ValidationError.mk c1]
           else if (value.length : Int) < min then v.Errors ++ [ValidationError.mk c2]
           else v.Errors) := by
    by_cases h : value = []
    · subst h
      simp [Validator.RequiredString, Validator.MinLength, Validator.Errors,
        AddError_errors]
    · by_cases hl : (value.length : Int) < min
      · simp [Validator.RequiredString, Validator.MinLength, Validator.Errors,
          AddError_errors, h, hl]
      · simp [Validator.RequiredString, Validator.MinLength, Validator.Errors, h, hl]
  refine ⟨key, ?_, ?_⟩
  · rw [key]
    split
    · simp
    · split
      · simp
      · simp
  · rw [key]
    intro heq
    have hlen := congrArg List.length heq
    split at hlen
    · simp at hlen
    · split at hlen
      · simp at hlen
      · simp at hlen

/-- C18: for every value and integers `min`, `max` with `min <= max + 1`,
`MinLength(value, min, c1)` and `MaxLength(value, max, c2)` never both append a
failure for the same value, whether called on the same state or one after the
other; and `MinLength(value, min, c)` with `min <= 1` never appends. -/
theorem MinLength_MaxLength_not_both (s : Validator) (value : GoString)
    (min max : Int) (c1 c2 : GoString) (h : min ≤ max + 1) :
    ¬ ((s.MinLength value min c1).Errors = s.Errors ++ [ValidationError.mk c1]
        ∧ (s.MaxLength value max c2).Errors = s.Errors ++ [ValidationError.mk c2])
    ∧ ((s.MinLength value min c1).MaxLength value max c2).Errors.length
        ≤ s.Errors.length + 1
    ∧ (∀ (m : Int) (c : GoString), m ≤ 1 → (s.MinLength value m c).Errors = s.Errors) := by
  refine ⟨?_, ?_, ?_⟩
  · rintro ⟨h1, h2⟩
    have a1 := (ite_AddError_errors_eq_append _ s c1).mp h1
    have a2 := (ite_AddError_errors_eq_append _ s c2).mp h2
    have := a1.2
    have := a2.2
    omega
  · by_cases hmin : value ≠ [] ∧ (value.length : Int) < min
    · have hmax : ¬ (value ≠ [] ∧ (value.length : Int) > max) := by
        intro hm
        have := hmin.2
        have := hm.2
        omega
      simp only [Validator.MinLength, Validator.MaxLength, if_pos hmin, if_neg hmax,
        Validator.Errors, AddError_errors, List.length_append, List.length_singleton,
        le_refl]
    · simp only [Validator.MinLength, if_neg hmin, Validator.Errors]
      unfold Validator.MaxLength
      split
      · simp [AddError_errors]
      · simp
  · intro m c hm
    refine (ite_AddError_errors_eq_self _ s c).mpr ?_
    rintro ⟨hne, hlt⟩
    have hpos : 0 < value.length := List.length_pos.mpr hne
    omega

/-- C18 at the value `"hi"` with `min = 3` and `max = 2`: `MinLength` appends and
`MaxLength` does not. -/
theorem MinLength_MaxLength_not_both_witness :
    (3 : Int) ≤ 2 + 1
    ∧ (New.MinLength (GoString.lit "hi") 3 (GoString.lit "min")).Errors
        = [ValidationError.mk (GoString.lit "min")]
    ∧ ¬ ((New.MinLength (GoString.lit "hi") 3 (GoString.lit "min")).Errors
          = New.Errors ++ [ValidationError.mk (GoString.lit "min")]
        ∧ (New.MaxLength (GoString.lit "hi") 2 (GoString.lit "max")).Errors
          = New.Errors ++ [ValidationError.mk (GoString.lit "max")]) :=
  ⟨by decide, by decide,
    (MinLength_MaxLength_not_both New (GoString.lit "hi") 3 2 (GoString.lit "min")
      (GoString.lit "max") (by decide)).1⟩

/-- C12: queries are pure. For every Validator state, a call of `HasErrors()` or
of `Errors()` writes nothing: the memory, and with it the failure sequence, is
the same after the call, so after any number of queries a query returns what it
returned at first. -/
theorem queries_are_pure (h : Heap) (qs : List Query) (q : Query) :
    h.HasErrors.2 = h
    ∧ h.Errors.2 = h
    ∧ Query.runAll h qs = h
    ∧ (Query.runAll h qs).view = h.view
    ∧ (q.run (Query.runAll h qs)).1 = (q.run h).1
    ∧ (∀ v : Validator, v.Errors = v.errors ∧ v.HasErrors = decide (v.errors.length > 0)) := by
  refine ⟨rfl, rfl, Query_runAll_eq h qs, ?_, ?_, fun v => ⟨rfl, rfl⟩⟩
  · rw [Query_runAll_eq]
  · rw [Query_runAll_eq]

/-- C16, as stated, fails: after `AddError("a")` on a fresh Validator, a caller
that overwrites element 0 of the slice returned by `Errors()` with another
failure `"x"` changes what the next `Errors()` returns, from `["a"]` to `["x"]`. -/
theorem Errors_overwrite_counterexample :
    (Heap.New.AddError (fun _ => 0) (GoString.lit "a")).view
        = [some (ValidationError.mk (GoString.lit "a"))]
    ∧ ∃ h2 : Heap,
        (Heap.New.AddError (fun _ => 0) (GoString.lit "a")).Errors.2.store
            (Heap.New.AddError (fun _ => 0) (GoString.lit "a")).Errors.1 0
            (some (ValidationError.mk (GoString.lit "x"))) = some h2
        ∧ h2.Errors.1.elems h2.Errors.2.arrays
            = [some (ValidationError.mk (GoString.lit "x"))]
        ∧ h2.Errors.1.elems h2.Errors.2.arrays
            ≠ (Heap.New.AddError (fun _ => 0) (GoString.lit "a")).view := by
  refine ⟨by decide, _, rfl, by decide, by decide⟩

/-- C16, amended: `Errors()` returns the slice of the Validator itself, not a
copy. As long as the caller does not write to it, a later `Errors()` returns
the recorded failures; after a caller overwrites element `i` of the returned
slice with `e`, a later `Errors()` returns the recorded failures with element
`i` replaced by `e`. -/
theorem Errors_returns_internal_slice (h : Heap) (i : Nat) (e : GoError)
    (hwf : h.WF) (hi : i < h.errors.len) :
    h.Errors.1 = h.errors
    ∧ h.Errors.2.Errors.1.elems h.Errors.2.Errors.2.arrays = h.view
    ∧ ∃ h2 : Heap, h.Errors.2.store h.Errors.1 i e = some h2
        ∧ h2.Errors.1 = h.Errors.1
        ∧ h2.Errors.1.elems h2.Errors.2.arrays = h.view.set i e := by
  refine ⟨rfl, rfl, ?_⟩
  obtain ⟨h2, hs, he, hv⟩ := Heap_store_view h i e hwf hi
  exact ⟨h2, hs, he, hv⟩

/-- The amended C16 at the Validator that holds the failure `"a"`, with element 0
overwritten by `"x"`. -/
theorem Errors_returns_internal_slice_witness :
    (Heap.New.AddError (fun _ => 0) (GoString.lit "a")).WF
    ∧ 0 < (Heap.New.AddError (fun _ => 0) (GoString.lit "a")).errors.len
    ∧ ∃ h2 : Heap,
        (Heap.New.AddError (fun _ => 0) (GoString.lit "a")).Errors.2.store
            (Heap.New.AddError (fun _ => 0) (GoString.lit "a")).Errors.1 0
            (some (ValidationError.mk (GoString.lit "x"))) = some h2
        ∧ h2.Errors.1.elems h2.Errors.2.arrays
            = (Heap.New.AddError (fun _ => 0) (GoString.lit "a")).view.set 0
                (some (ValidationError.mk (GoString.lit "x"))) :=
  ⟨by decide, by decide,
    match Errors_returns_internal_slice (Heap.New.AddError (fun _ => 0) (GoString.lit "a")) 0
        (some (ValidationError.mk (GoString.lit "x"))) (by decide) (by decide) with
    | ⟨_, _, h2, hs, _, hv⟩ => ⟨h2, hs, hv⟩⟩

end validation

namespace identity

open context

/-- C19: identity round trip. For every context `ctx` and every `ownerID`, the
empty string included, `OwnerID(SetOwnerID(ctx, ownerID))` returns
`(ownerID, true)` and `Require(SetOwnerID(ctx, ownerID))` returns
`(ownerID, nil)`; when `SetOwnerID` is applied twice, the owner ID set last is
the one returned. `context.WithValue` is any function that associates the value
with the key in the derived context. -/
theorem OwnerID_SetOwnerID (WithValue : Context → GoAny → GoAny → Context)
    (hWithValue : ∀ parent key val, (WithValue parent key val).Value key = val)
    (ctx : Context) (first ownerID : GoString) :
    OwnerID (SetOwnerID WithValue ctx ownerID) = (ownerID, true)
    ∧ Require (SetOwnerID WithValue ctx ownerID) = (ownerID, none)
    ∧ OwnerID (SetOwnerID WithValue ctx (GoString.lit "")) = (GoString.lit "", true)
    ∧ Require (SetOwnerID WithValue ctx (GoString.lit "")) = (GoString.lit "", none)
    ∧ OwnerID (SetOwnerID WithValue (SetOwnerID WithValue ctx first) ownerID)
        = (ownerID, true)
    ∧ Require (SetOwnerID WithValue (SetOwnerID WithValue ctx first) ownerID)
        = (ownerID, none) := by
  have hO : ∀ (c : Context) (o : GoString), OwnerID (SetOwnerID WithValue c o) = (o, true) := by
    intro c o
    simp only [OwnerID, SetOwnerID, hWithValue]
  have hR : ∀ (c : Context) (o : GoString), Require (SetOwnerID WithValue c o) = (o, none) := by
    intro c o
    simp only [Require, hO]
    rfl
  exact ⟨hO _ _, hR _ _, hO _ _, hR _ _, hO _ _, hR _ _⟩

/-- C19 with `context.WithValue` of the standard library on the empty context:
the owner ID `"u2"`, set after `"u1"`, is the one returned. -/
theorem OwnerID_SetOwnerID_witness :
    OwnerID (SetOwnerID WithValue (SetOwnerID WithValue Background (GoString.lit "u1"))
        (GoString.lit "u2")) = (GoString.lit "u2", true)
    ∧ Require (SetOwnerID WithValue (SetOwnerID WithValue Background (GoString.lit "u1"))
        (GoString.lit "u2")) = (GoString.lit "u2", none) :=
  ⟨(OwnerID_SetOwnerID WithValue (fun _ _ _ => if_pos rfl) Background (GoString.lit "u1")
      (GoString.lit "u2")).2.2.2.2.1,
   (OwnerID_SetOwnerID WithValue (fun _ _ _ => if_pos rfl) Background (GoString.lit "u1")
      (GoString.lit "u2")).2.2.2.2.2⟩

/-- C20: for every context `ctx`, `Require(ctx)` returns `("", ErrUnauthenticated)`
if and only if `OwnerID(ctx)` reports absent, that is if and only if the value
under the owner key is not a `string`; otherwise it returns the stored owner ID
with a nil error. -/
theorem Require_iff_OwnerID (ctx : Context) :
    (Require ctx = ([], some errs.ErrUnauthenticated) ↔ (OwnerID ctx).2 = false)
    ∧ ((OwnerID ctx).2 = false ↔ ∀ s, ctx.Value ownerIDKey ≠ GoAny.string s)
    ∧ (Require ctx = ((OwnerID ctx).1, none) ↔ (OwnerID ctx).2 = true)
    ∧ (∀ s, ctx.Value ownerIDKey = GoAny.string s ↔ Require ctx = (s, none)) := by
  have hcases : (∃ s, ctx.Value ownerIDKey = GoAny.string s ∧ OwnerID ctx = (s, true)
        ∧ Require ctx = (s, none))
      ∨ ((∀ s, ctx.Value ownerIDKey ≠ GoAny.string s) ∧ OwnerID ctx = ([], false)
        ∧ Require ctx = ([], some errs.ErrUnauthenticated)) := by
    unfold Require OwnerID
    cases hv : ctx.Value ownerIDKey with
    | string s => exact Or.inl ⟨s, rfl, rfl, rfl⟩
    | nil => exact Or.inr ⟨fun s h => (by cases h), rfl, rfl⟩
    | contextKey k => exact Or.inr ⟨fun s h => (by cases h), rfl, rfl⟩
    | other t => exact Or.inr ⟨fun s h => (by cases h), rfl, rfl⟩
  rcases hcases with ⟨s, hv, hO, hR⟩ | ⟨hv, hO, hR⟩
  · refine ⟨?_, ?_, ?_, ?_⟩
    · rw [hR, hO]
      simp
    · rw [hO]
      simp only [Bool.true_eq_false, false_iff, not_forall, not_not]
      exact ⟨s, hv⟩
    · rw [hR, hO]
      simp
    · intro t
      rw [hR, hv]
      constructor
      · intro h
        cases h
        rfl
      · intro h
        cases h
        rfl
  · refine ⟨?_, ?_, ?_, ?_⟩
    · rw [hR, hO]
      simp
    · rw [hO]
      simp only [true_iff]
      exact hv
    · rw [hR, hO]
      simp
    · intro t
      rw [hR]
      constructor
      · intro h
        exact absurd h (hv t)
      · intro h
        cases h

end identity

end GoShared
